import Mathlib

/-!
Verification development for the `env-struct` repository (`src/env-struct.ts`).

The TypeScript source is shallowly embedded:
* JavaScript runtime values are `JsVal`; JS objects are ordered association
  lists (`JsRecord`) with `jsGet`/`jsHas` modelling property access.
* Zod schema nodes form a finite graph (`SchemaGraph`): each node id maps to a
  `NodeDef` carrying the `_def` fields the source inspects (`typeName`/`type`
  tags and the `innerType`/`schema`/`in`/`out` references).  A graph, rather
  than a tree, is used because `unwrapType` in the source defends against
  cyclic `_def` chains with a seen-set.
* The JS builtins `JSON.parse` and `Number(·)` are environment primitives, not
  repository code; they are abstracted as the `JsPrims` parameter (`jsonParse`
  may fail, `toNumber` returns `none` for NaN).
* The Zod validation engine is an external collaborator of the repository; a
  minimal model of the contract the source relies on (per-field validators,
  whole-object checks, transform-bearing parsers) is defined further below and
  marked as modelled from the spec.
-/

namespace EnvStruct

/-- JavaScript runtime values, as far as the embedded code observes them. -/
inductive JsVal where
  | undef
  | nullv
  | bool (b : Bool)
  | num (n : Int)
  | str (s : String)
  | arr (elems : List JsVal)
  | obj (fields : List (String × JsVal))

/-- A JavaScript object viewed as an ordered association list (insertion order
of the properties is tracked, as JS does). -/
abbrev JsRecord := List (String × JsVal)

/-- Property read `r[k]`: the first entry for `k`, or `undefined`. -/
def jsGet (r : JsRecord) (k : String) : JsVal :=
  match List.find? (fun p => p.fst == k) r with
  | some p => p.snd
  | none => JsVal.undef

/-- Property existence test, modelling `Object.prototype.hasOwnProperty`. -/
def jsHas (r : JsRecord) (k : String) : Bool :=
  (List.find? (fun p => p.fst == k) r).isSome

/-- Model of one Zod `_def` object: the source reads only these fields
(`typeName`, `type`, `innerType`, `schema`, `in`, `out`); the last two are
renamed `inRef`/`outRef` because `in` is a Lean keyword. -/
structure NodeDef where
  typeName : Option String := none
  typeTag : Option String := none
  innerType : Option Nat := none
  schemaRef : Option Nat := none
  inRef : Option Nat := none
  outRef : Option Nat := none

/-- A finite graph of schema nodes: node id to `_def` record.  Cycles are
representable, exactly the situation `unwrapType`'s seen-set defends against. -/
abbrev SchemaGraph := List (Nat × NodeDef)

/-- Resolve a node id to its `_def` (a node outside the graph behaves like a
`null` def, which the source tolerates). -/
def lookupNode (g : SchemaGraph) (i : Nat) : Option NodeDef :=
  (List.find? (fun p => p.fst == i) g).map Prod.snd

/-- Source `getTypeTag`: `def.typeName ?? def.type`, `undefined` on a null def. -/
def getTypeTag (d : Option NodeDef) : Option String :=
  match d with
  | none => none
  | some d => d.typeName.orElse (fun _ => d.typeTag)

/-- Tags handled by the optional/nullable/default/catch/readonly branch of
`unwrapType` (the loop follows `innerType`). -/
def isInnerWrapperTag (t : Option String) : Bool :=
  t == some "ZodOptional" || t == some "optional" ||
  t == some "ZodNullable" || t == some "nullable" ||
  t == some "ZodDefault" || t == some "default" ||
  t == some "ZodCatch" || t == some "catch" ||
  t == some "ZodReadonly" || t == some "readonly"

/-- Tags handled by the effects/transform/branded branch (follows `schema`). -/
def isSchemaWrapperTag (t : Option String) : Bool :=
  t == some "ZodEffects" || t == some "effects" || t == some "transform" ||
  t == some "ZodBranded" || t == some "branded"

/-- Tags handled by the pipeline branch (follows `in ?? out`). -/
def isPipeWrapperTag (t : Option String) : Bool :=
  t == some "ZodPipeline" || t == some "pipeline" || t == some "pipe"

/-- One dispatch of the `unwrapType` loop body on the current node `c` (after
the seen-set bookkeeping): `some cur2` means the loop continues with `cur2` as
the new `current` (the `continue` statements), `none` means the body `break`s
and the loop returns `current = c`. -/
def unwrapStep (g : SchemaGraph) (c : Nat) : Option (Option Nat) :=
  let d := lookupNode g c
  let t := getTypeTag d
  if isInnerWrapperTag t then some (d.bind NodeDef.innerType)
  else if isSchemaWrapperTag t then
    match d.bind NodeDef.schemaRef with
    | some nxt => some (some nxt)
    | none => none
  else if isPipeWrapperTag t then
    match d.bind NodeDef.inRef with
    | some nxt => some (some nxt)
    | none =>
      match d.bind NodeDef.outRef with
      | some nxt => some (some nxt)
      | none => none
  else none

/-- Fueled translation of the `unwrapType` while-loop.  One fuel unit is one
loop iteration; `none` means the fuel ran out, `some r` is the loop's result
(`r` is the returned `current`, itself possibly `undefined`).  The seen-set of
the source is the `seen` list: the loop exits as soon as `current` is absent
or already seen, and otherwise records `current` before dispatching the body. -/
def unwrapGoF (g : SchemaGraph) : Nat → Option Nat → List Nat → Option (Option Nat)
  | 0, _, _ => none
  | _ + 1, none, _ => some none
  | fuel + 1, some c, seen =>
    if seen.contains c then some (some c)
    else
      match unwrapStep g c with
      | some cur2 => unwrapGoF g fuel cur2 (c :: seen)
      | none => some (some c)

/-- Source `unwrapType`: run the loop with enough fuel for every node of the
graph plus one final iteration (the sufficiency of this budget is proved in
the termination theorem below). -/
def unwrapType (g : SchemaGraph) (schema : Option Nat) : Option Nat :=
  (unwrapGoF g (g.length + 1) schema []).getD none

/-- The classified kind of a field-schema node: the type tag of the unwrapped
base schema, exactly as `coerceValue` computes it. -/
def fieldTypeTag (g : SchemaGraph) (schema : Option Nat) : Option String :=
  getTypeTag ((unwrapType g schema).bind (lookupNode g))

/-- Source `isObjectLike`. -/
def isObjectLike (typeName : String) : Bool :=
  typeName == "ZodObject" || typeName == "object" ||
  typeName == "ZodArray" || typeName == "array" ||
  typeName == "ZodRecord" || typeName == "record" ||
  typeName == "ZodMap" || typeName == "map" ||
  typeName == "ZodTuple" || typeName == "tuple" ||
  typeName == "ZodSet" || typeName == "set"

/-- The `typeName && isObjectLike(typeName)` guard. -/
def tagObjectLike (t : Option String) : Bool :=
  match t with
  | some tn => isObjectLike tn
  | none => false

/-- Environment primitives used by the source: the JS builtins `JSON.parse`
(which may throw, modelled by `Except`) and `Number(·)` (whose NaN result is
modelled by `none`).  They are parameters of the embedding because they are
runtime builtins, not repository code. -/
structure JsPrims where
  jsonParse : String → Except String JsVal
  toNumber : String → Option Int

/-- Source `mustJsonParse`: try `JSON.parse`, and on a raised error return the
raw string unchanged. -/
def mustJsonParse (P : JsPrims) (s : String) : JsVal :=
  match P.jsonParse s with
  | Except.ok j => j
  | Except.error _ => JsVal.str s

/-- ASCII fragment of `String.prototype.toLowerCase`, per character. -/
def jsCharToLower (c : Char) : Char :=
  if 'A' ≤ c && c ≤ 'Z' then Char.ofNat (c.toNat + 32) else c

/-- ASCII fragment of `String.prototype.toUpperCase`, per character. -/
def jsCharToUpper (c : Char) : Char :=
  if 'a' ≤ c && c ≤ 'z' then Char.ofNat (c.toNat - 32) else c

/-- `String.prototype.toLowerCase` (ASCII fragment), implemented on the
character list so concrete runs reduce inside the kernel. -/
def jsToLower (s : String) : String :=
  String.mk (s.data.map jsCharToLower)

/-- `String.prototype.toUpperCase` (ASCII fragment). -/
def jsToUpper (s : String) : String :=
  String.mk (s.data.map jsCharToUpper)

/-- `String.prototype.trim` (whitespace at both ends). -/
def jsTrim (s : String) : String :=
  String.mk (((s.data.dropWhile Char.isWhitespace).reverse.dropWhile Char.isWhitespace).reverse)

/-- `String.prototype.includes` for a single character. -/
def jsIncludesChar (s : String) (c : Char) : Bool :=
  s.data.contains c

/-- `String.prototype.startsWith`. -/
def jsStartsWith (s pre : String) : Bool :=
  List.isPrefixOf pre.data s.data

/-- Source `coerceValue`, translated branch for branch. -/
def coerceValue (P : JsPrims) (g : SchemaGraph) (schema : Option Nat)
    (raw : Option String) : JsVal :=
  match raw with
  | none => JsVal.undef
  | some rawS =>
    let normalized := jsTrim rawS
    let typeName := fieldTypeTag g schema
    if tagObjectLike typeName then
      mustJsonParse P rawS
    else if typeName == some "ZodNumber" || typeName == some "number" then
      if normalized == "" then JsVal.str rawS
      else
        match P.toNumber normalized with
        | some n => JsVal.num n
        | none => JsVal.str rawS
    else if typeName == some "ZodBoolean" || typeName == some "boolean" then
      let v := jsToLower normalized
      if v == "true" || v == "1" || v == "on" || v == "yes" then JsVal.bool true
      else if v == "false" || v == "0" || v == "off" || v == "no" then JsVal.bool false
      else JsVal.str rawS
    else if typeName == some "ZodString" || typeName == some "string" then
      JsVal.str rawS
    else if normalized != "" && (jsStartsWith normalized "\x7b" || jsStartsWith normalized "[") then
      match P.jsonParse normalized with
      | Except.ok j => j
      | Except.error _ => JsVal.str rawS
    else JsVal.str rawS

/-- The `.replace(/_([a-z])/g, ...)` scan of `snakeToCamelKey`, on the char
list of the already-lowercased key: an underscore immediately followed by a
lowercase letter is replaced by the letter uppercased; matches do not overlap
and the scan is left to right. -/
def camelReplace : List Char → List Char
  | [] => []
  | [c] => [c]
  | c :: c2 :: rest2 =>
    if c == '_' then
      if 'a' ≤ c2 && c2 ≤ 'z' then jsCharToUpper c2 :: camelReplace rest2
      else '_' :: camelReplace (c2 :: rest2)
    else c :: camelReplace (c2 :: rest2)

/-- Source `snakeToCamelKey`. -/
def snakeToCamelKey (key : String) : String :=
  if jsIncludesChar key '_' then
    String.mk (camelReplace (jsToLower key).data)
  else if key == jsToUpper key then jsToLower key
  else key

/-- Recognized scalar tags of the `coerceValue` dispatch (number, boolean and
string branches); everything else falls to the best-effort JSON fallback. -/
def scalarTagMatch (t : Option String) : Bool :=
  t == some "ZodNumber" || t == some "number" ||
  t == some "ZodBoolean" || t == some "boolean" ||
  t == some "ZodString" || t == some "string"

/-- Modelled from the spec: one issue of the external schema engine's
structured validation error ("field-path-located" message, spec section 7). -/
structure Issue where
  path : List String
  message : String

/-- Modelled from the spec: a whole-object (cross-field) check of the external
schema engine; it inspects a candidate record and reports issues. -/
abbrev Check := JsRecord → List Issue

/-- One declared field of the schema object: the schema-graph node that
`coerceValue` classifies, plus the external engine's per-field validator
(modelled from the spec: validation "returns either a validated/transformed
value or a structured error"). -/
structure Field where
  node : Option Nat
  validate : JsVal → Except Issue JsVal

/-- Modelled from the spec: the external engine's object schema, as the source
relies on it — an ordered field shape plus the `_def.checks` array of
whole-object checks. -/
structure ZObject where
  shape : List (String × Field)
  checks : List Check

/-- Modelled from the spec: per-field validation pass of `z.object(...).parse`:
each shape field validates `candidate[key]`; failures carry the field's key on
their path, successes are assigned to the output record in shape order. -/
def zparseFields (candidate : JsRecord) : List (String × Field) → List Issue × JsRecord
  | [] => ([], [])
  | (k, f) :: rest =>
    let tail := zparseFields candidate rest
    match f.validate (jsGet candidate k) with
    | Except.ok v => (tail.fst, (k, v) :: tail.snd)
    | Except.error i => ({ i with path := k :: i.path } :: tail.fst, tail.snd)

/-- Modelled from the spec: whole-object parse of the external schema engine —
field-level validation, then the whole-object checks against the validated
record; any issue aborts with the structured error. -/
def zparse (o : ZObject) (candidate : JsRecord) : Except (List Issue) JsRecord :=
  let fieldPass := zparseFields candidate o.shape
  if fieldPass.fst.isEmpty then
    let checkIssues := o.checks.flatMap (fun c => c fieldPass.snd)
    if checkIssues.isEmpty then Except.ok fieldPass.snd
    else Except.error checkIssues
  else Except.error fieldPass.fst

/-- Modelled from the spec: the parser submitted for final validation — the
base object schema, optionally wrapped by a record-to-record transform (the
only wrapped-parser form the claims exercise). -/
structure ZParser where
  base : ZObject
  post : Option (JsRecord → JsRecord)

/-- Modelled from the spec: `parser.parse(candidate)` — validate via the base
object schema, then apply the transform if one wraps it. -/
def ZParser.parse (p : ZParser) (candidate : JsRecord) : Except (List Issue) JsRecord :=
  (zparse p.base candidate).map (fun r =>
    match p.post with
    | some f => f r
    | none => r)

/-- Errors surfaced by construction and narrowing: the engine's structured
validation error (`ZodError`), or the `Env.omit()` undeclared-key `Error`
naming the offending key. -/
inductive EnvError where
  | validation (issues : List Issue)
  | undeclaredKey (key : String)

/-- The candidate record `buildValues` assembles: for each declared key, the
coercion of its raw source string. -/
def candidateOf (P : JsPrims) (g : SchemaGraph) (shape : List (String × Field))
    (source : String → Option String) : JsRecord :=
  shape.map (fun kf => (kf.fst, coerceValue P g kf.snd.node (source kf.fst)))

/-- Source `buildValues`: read each declared key's raw string, coerce it into
the candidate record, and submit the candidate to the validating parser
(letting its error bubble). -/
def buildValues (P : JsPrims) (g : SchemaGraph) (parser : ZParser)
    (source : String → Option String) : Except (List Issue) JsRecord :=
  parser.parse (candidateOf P g parser.base.shape source)

/-- Source `EnvVar`: per-variable reflection and value. -/
structure EnvVarMeta where
  name : String
  val : JsVal
  raw : Option String

/-- The `// Surface additional transform outputs on the data accessor` loop:
append each parsed-record key that is neither declared nor already present. -/
def addExtras (declared : List String) (parsed : JsRecord) : List String → JsRecord → JsRecord
  | [], acc => acc
  | k :: rest, acc =>
    if declared.contains k then addExtras declared parsed rest acc
    else if jsHas acc k then addExtras declared parsed rest acc
    else addExtras declared parsed rest (acc ++ [(k, jsGet parsed k)])

/-- The declared-keys loop of the constructor, camel view portion: each
declared key present on the parsed record contributes its value under its
camelCase name unless that camel name is already taken (first declaration
wins, later colliding keys are skipped). -/
def buildCamelDecl (parsed : JsRecord) : List String → JsRecord → JsRecord
  | [], acc => acc
  | k :: rest, acc =>
    let camelKey := snakeToCamelKey k
    if jsHas parsed k then
      if jsHas acc camelKey then buildCamelDecl parsed rest acc
      else buildCamelDecl parsed rest (acc ++ [(camelKey, jsGet parsed k)])
    else buildCamelDecl parsed rest acc

/-- The `// Surface any additional fields produced by transforms on the camel
accessor` loop. -/
def buildCamelExtras (declared : List String) (parsed : JsRecord) : List String → JsRecord → JsRecord
  | [], acc => acc
  | k :: rest, acc =>
    if declared.contains k then buildCamelExtras declared parsed rest acc
    else
      let camelKey := snakeToCamelKey k
      if jsHas acc camelKey then buildCamelExtras declared parsed rest acc
      else buildCamelExtras declared parsed rest (acc ++ [(camelKey, jsGet parsed k)])

/-- `Object.keys` of a parsed record (a JS object cannot repeat keys; the
dedup keeps the embedding faithful even on ill-formed association lists). -/
def jsKeys (r : JsRecord) : List String :=
  (r.map Prod.fst).eraseDups

/-- A constructed `EnvImpl` instance: inputs retained for `pick`/`omit`, the
validated record, and the frozen derived views (`meta`, `data`, `camel`). -/
structure EnvState where
  prims : JsPrims
  graph : SchemaGraph
  parser : ZParser
  source : String → Option String
  parsedRecord : JsRecord
  meta : List (String × EnvVarMeta)
  dataRec : JsRecord
  camel : JsRecord

/-- Declared environment variable names (`Object.keys(this.schema.shape)`). -/
def EnvState.declaredKeys (e : EnvState) : List String :=
  e.parser.base.shape.map Prod.fst

/-- The `EnvImpl` private constructor: build the candidate values, validate,
then populate metadata and the value/camel accessors; a validation failure
aborts with the engine's error and produces no instance. -/
def mkEnv (P : JsPrims) (g : SchemaGraph) (parser : ZParser)
    (source : String → Option String) : Except EnvError EnvState :=
  match buildValues P g parser source with
  | Except.error issues => Except.error (EnvError.validation issues)
  | Except.ok parsed =>
    let declared := parser.base.shape.map Prod.fst
    Except.ok
      { prims := P
        graph := g
        parser := parser
        source := source
        parsedRecord := parsed
        meta := declared.map (fun k => (k, ⟨k, jsGet parsed k, source k⟩))
        dataRec := addExtras declared parsed (jsKeys parsed)
          (declared.map (fun k => (k, jsGet parsed k)))
        camel := buildCamelExtras declared parsed (jsKeys parsed)
          (buildCamelDecl parsed declared []) }

/-- Per-key metadata access `env.meta[k]`. -/
def EnvState.metaGet (e : EnvState) (k : String) : EnvVarMeta :=
  match List.find? (fun p => p.fst == k) e.meta with
  | some p => p.snd
  | none => ⟨"", JsVal.undef, none⟩

/-- The snapshot assembly inside `pick`'s re-attached `superRefine`: start from
a shallow copy of the narrowed data, then for each original key that was not
picked and is not already present, feed in the parent's previously parsed
value from its data accessor. -/
def buildSnapshot (parentData : JsRecord) (picked : List String) :
    List String → JsRecord → JsRecord
  | [], snapshot => snapshot
  | k :: rest, snapshot =>
    if picked.contains k then buildSnapshot parentData picked rest snapshot
    else if jsHas snapshot k then buildSnapshot parentData picked rest snapshot
    else buildSnapshot parentData picked rest (snapshot ++ [(k, jsGet parentData k)])

/-- The check `pick` re-attaches onto the narrowed schema: run every base
check against the synthetic snapshot, keeping all issues they raise. -/
def reattachedCheck (baseKeys : List String) (picked : List String)
    (parentData : JsRecord) (baseChecks : List Check) : Check :=
  fun data => baseChecks.flatMap (fun c => c (buildSnapshot parentData picked baseKeys data))

/-- The Zod-level `this.schema.pick(mask)`: the shape restricted to the masked
keys (mask insertion order, duplicates collapsed), with no checks carried
over. -/
def pickShape (shape : List (String × Field)) (keys : List String) : List (String × Field) :=
  keys.eraseDups.filterMap (fun k =>
    (List.find? (fun p => p.fst == k) shape).map (fun p => (k, p.snd)))

/-- The narrowed schema `pick` builds: a plain Zod pick, plus — when the
original schema carries whole-object checks — the single re-attached
snapshot check. -/
def EnvState.pickSchema (e : EnvState) (keys : List String) : ZObject :=
  let subsetShape := pickShape e.parser.base.shape keys
  let baseChecks := e.parser.base.checks
  if baseChecks.length > 0 then
    { shape := subsetShape
      checks := [reattachedCheck (e.parser.base.shape.map Prod.fst) keys e.dataRec baseChecks] }
  else { shape := subsetShape, checks := [] }

/-- Source `EnvImpl.pick`: construct a brand-new instance from the narrowed
schema and the same source. -/
def EnvState.pick (e : EnvState) (keys : List String) : Except EnvError EnvState :=
  mkEnv e.prims e.graph { base := e.pickSchema keys, post := none } e.source

/-- Source `EnvImpl.omit`: reject the first key not declared on the original
schema before any narrowing work, otherwise delegate to `pick` on the
complementary key set. -/
def EnvState.omit (e : EnvState) (keys : List String) : Except EnvError EnvState :=
  let declaredKeys := e.parser.base.shape.map Prod.fst
  match List.find? (fun k => !(declaredKeys.contains k)) keys with
  | some k => Except.error (EnvError.undeclaredKey k)
  | none =>
    let kept := declaredKeys.filter (fun k => !(keys.contains k))
    e.pick kept

/-- The mutable validation context of the re-attached `superRefine` body:
`ctx.value` and the issue list `addIssue` appends to. -/
structure RefineCtx where
  value : JsRecord
  issues : List Issue

/-- Stateful rendering of the re-attached check loop (source lines 262-287):
for each base check, `ctx.value` is assigned the snapshot, the check runs
reading `ctx.value` and adding its issues, and the `finally` block restores
the original value.  The second component records every value assigned to
`ctx.value`, in order, so that context mutation is observable. -/
def runBaseChecks (snapshot : JsRecord) :
    List Check → RefineCtx → RefineCtx × List JsRecord
  | [], ctx => (ctx, [])
  | chk :: rest, ctx =>
    let originalValue := ctx.value
    let ctxDuring : RefineCtx := { value := snapshot, issues := ctx.issues }
    let ctxRan : RefineCtx := { ctxDuring with issues := ctxDuring.issues ++ chk ctxDuring.value }
    let ctxRestored : RefineCtx := { ctxRan with value := originalValue }
    let tail := runBaseChecks snapshot rest ctxRestored
    (tail.fst, snapshot :: originalValue :: tail.snd)

/-- Decimal digit value of a character. -/
def digitVal (c : Char) : Option Nat :=
  if '0' ≤ c && c ≤ '9' then some (c.toNat - '0'.toNat) else none

/-- Accumulating decimal parse of a digit list. -/
def decValGo : List Char → Nat → Option Nat
  | [], acc => some acc
  | c :: rest, acc =>
    match digitVal c with
    | some d => decValGo rest (acc * 10 + d)
    | none => none

/-- Decimal-digit fragment of the JS `Number(·)` builtin, used to instantiate
the `JsPrims` parameter on concrete inputs. -/
def decToNumber (s : String) : Option Int :=
  match s.data with
  | [] => none
  | l => (decValGo l 0).map Int.ofNat

/-- Concrete primitives for witnesses: a `JSON.parse` that always raises and
the decimal `Number(·)` fragment. -/
def P0 : JsPrims :=
  ⟨fun s => Except.error s, decToNumber⟩

/-- Concrete schema graph for witnesses: a string node, an optional-string
wrapper, number/boolean/object terminals, and a self-referential optional
wrapper (a cyclic `_def` chain). -/
def gEx : SchemaGraph :=
  [ (0, { typeName := some "ZodString" })
  , (1, { typeName := some "ZodOptional", innerType := some 0 })
  , (2, { typeName := some "ZodNumber" })
  , (3, { typeName := some "ZodBoolean" })
  , (4, { typeName := some "ZodObject" })
  , (5, { typeName := some "ZodOptional", innerType := some 5 }) ]

/-- Modelled from the spec: the external engine's `z.string()` validator —
accepts exactly strings, unchanged. -/
def vString : JsVal → Except Issue JsVal
  | JsVal.str s => Except.ok (JsVal.str s)
  | _ => Except.error ⟨[], "expected string"⟩

/-- Modelled from the spec: the external engine's `z.number()` validator. -/
def vNumber : JsVal → Except Issue JsVal
  | JsVal.num n => Except.ok (JsVal.num n)
  | _ => Except.error ⟨[], "expected number"⟩

/-- Modelled from the spec: the external engine's `z.boolean()` validator. -/
def vBoolean : JsVal → Except Issue JsVal
  | JsVal.bool b => Except.ok (JsVal.bool b)
  | _ => Except.error ⟨[], "expected boolean"⟩

/-- Modelled from the spec: `.optional()` — `undefined` passes through,
anything else goes to the inner validator. -/
def vOptional (v : JsVal → Except Issue JsVal) : JsVal → Except Issue JsVal
  | JsVal.undef => Except.ok JsVal.undef
  | x => v x

/-- Concrete field fixtures pairing a graph node with its validator. -/
def fString : Field := ⟨some 0, vString⟩

/-- Optional-string field fixture. -/
def fOptString : Field := ⟨some 1, vOptional vString⟩

/-- Number field fixture. -/
def fNumber : Field := ⟨some 2, vNumber⟩

/-- Boolean field fixture. -/
def fBool : Field := ⟨some 3, vBoolean⟩

/-- JS strict equality `===` restricted to the primitive values the example
checks compare. -/
def strictEqPrim : JsVal → JsVal → Bool
  | JsVal.str a, JsVal.str b => a == b
  | JsVal.num a, JsVal.num b => a == b
  | JsVal.bool a, JsVal.bool b => a == b
  | JsVal.undef, JsVal.undef => true
  | _, _ => false

/-- The cross-field rule of the spec's example: `USERNAME === MIRROR`. -/
def mirrorCheck : Check := fun r =>
  if strictEqPrim (jsGet r "USERNAME") (jsGet r "MIRROR") then []
  else [⟨["MIRROR"], "mirror must match username"⟩]

/-- Schema fixture `{USERNAME: string, MIRROR: string}` with the mirror check. -/
def mirrorSchema : ZObject :=
  ⟨[("USERNAME", fString), ("MIRROR", fString)], [mirrorCheck]⟩

/-- Plain parser over the mirror schema. -/
def mirrorParser : ZParser := ⟨mirrorSchema, none⟩

/-- Mismatched mirror source. -/
def srcMismatch : String → Option String := fun k =>
  if k == "USERNAME" then some "admin"
  else if k == "MIRROR" then some "other"
  else none

/-- Matching mirror source. -/
def srcMatch : String → Option String := fun k =>
  if k == "USERNAME" then some "admin"
  else if k == "MIRROR" then some "admin"
  else none

/-- Camel-collision schema fixture: `FOO_BAR` declared before `fooBar`. -/
def camelSchema : ZObject :=
  ⟨[("FOO_BAR", fString), ("fooBar", fOptString)], []⟩

/-- Plain parser over the camel-collision schema. -/
def camelParser : ZParser := ⟨camelSchema, none⟩

/-- Source for the camel-collision example. -/
def srcCamel : String → Option String := fun k =>
  if k == "FOO_BAR" then some "fromSnake"
  else if k == "fooBar" then some "fromCamel"
  else none

/-- Schema fixture `{PORT, TOKEN, OPTIONAL}` for the omit examples. -/
def omitSchema : ZObject :=
  ⟨[("PORT", fNumber), ("TOKEN", fString), ("OPTIONAL", fOptString)], []⟩

/-- Plain parser over the omit schema. -/
def omitParser : ZParser := ⟨omitSchema, none⟩

/-- Source for the omit examples. -/
def srcOmit : String → Option String := fun k =>
  if k == "PORT" then some "4200"
  else if k == "TOKEN" then some "secret"
  else if k == "OPTIONAL" then some "maybe"
  else none

/-- Boolean-flag schema fixture. -/
def flagSchema : ZObject := ⟨[("FLAG", fBool)], []⟩

/-- Plain parser over the flag schema. -/
def flagParser : ZParser := ⟨flagSchema, none⟩

/-- Source holding an unrecognised boolean token. -/
def srcMaybe : String → Option String := fun k =>
  if k == "FLAG" then some "maybe" else none

/-- Record-to-record transform fixture: drops `REMOVE_ME`, adds `ADDED_FIELD`. -/
def dropRemovePost : JsRecord → JsRecord := fun r =>
  [("COUNT", jsGet r "COUNT"), ("ADDED_FIELD", JsVal.str "extra")]

/-- Schema fixture whose parser carries the dropping transform. -/
def transformSchema : ZObject :=
  ⟨[("COUNT", fString), ("REMOVE_ME", fString)], []⟩

/-- Transform-bearing parser over `transformSchema`. -/
def transformParser : ZParser := ⟨transformSchema, some dropRemovePost⟩

/-- Source for the transform example. -/
def srcTransform : String → Option String := fun k =>
  if k == "COUNT" then some "42"
  else if k == "REMOVE_ME" then some "bye"
  else none

/-- Single optional-string schema fixture. -/
def optSchema : ZObject := ⟨[("OPTIONAL", fOptString)], []⟩

/-- Plain parser over `optSchema`. -/
def optParser : ZParser := ⟨optSchema, none⟩

/-- Source with an all-blank value. -/
def srcBlank : String → Option String := fun k =>
  if k == "OPTIONAL" then some "   " else none

/-- Empty source. -/
def srcNone : String → Option String := fun _ => none

/-- The first-declared schema key whose camelised name is `c` and whose entry
the validated record contains: the key whose value the camel view exposes
under `c` (first-declared wins). -/
def camelProvider (parsed : JsRecord) (declared : List String) (c : String) : Option String :=
  (declared.filter (fun k => jsHas parsed k && (snakeToCamelKey k == c))).head?

/-- Snapshot as the spec words it: the narrowed validated input merged with
the parent's already-validated values for every omitted key not present in
the narrowed input. -/
def specSnapshot (baseKeys picked : List String) (parentData data : JsRecord) : JsRecord :=
  data ++ (baseKeys.filter (fun k => !(picked.contains k) && !(jsHas data k))).map
    (fun k => (k, jsGet parentData k))

/-- Extract the payload of a successful construction (fixtures only reference
this on constructions that are proved successful). -/
def exOk : Except EnvError EnvState → EnvState
  | Except.ok e => e
  | Except.error _ => ⟨P0, [], ⟨⟨[], []⟩, none⟩, fun _ => none, [], [], [], []⟩

/-- Concrete constructed instances used by witnesses. -/
def envCamel : EnvState := exOk (mkEnv P0 gEx camelParser srcCamel)

/-- Constructed omit-example instance. -/
def envOmit : EnvState := exOk (mkEnv P0 gEx omitParser srcOmit)

/-- Constructed transform-example instance. -/
def envTransform : EnvState := exOk (mkEnv P0 gEx transformParser srcTransform)

/-- Constructed blank-optional instance. -/
def envBlank : EnvState := exOk (mkEnv P0 gEx optParser srcBlank)

/-- Constructed empty-source instance. -/
def envNone : EnvState := exOk (mkEnv P0 gEx optParser srcNone)

/-- Constructed matching-mirror instance. -/
def envMirror : EnvState := exOk (mkEnv P0 gEx mirrorParser srcMatch)

example : fieldTypeTag gEx (some 1) = some "ZodString" := rfl
example : fieldTypeTag gEx (some 5) = some "ZodOptional" := rfl
example : unwrapType gEx (some 5) = some 5 := rfl
example : coerceValue P0 gEx (some 3) (some " YeS ") = JsVal.bool true := rfl
example : coerceValue P0 gEx (some 2) (some " 8080 ") = JsVal.num 8080 := rfl
example : coerceValue P0 gEx (some 4) (some "not json") = JsVal.str "not json" := rfl
example : snakeToCamelKey "FOO_BAR" = "fooBar" := rfl
example : snakeToCamelKey "fooBar" = "fooBar" := rfl
example :
    mkEnv P0 gEx mirrorParser srcMismatch
      = Except.error (EnvError.validation [⟨["MIRROR"], "mirror must match username"⟩]) := rfl
example :
    mkEnv P0 gEx flagParser srcMaybe
      = Except.error (EnvError.validation [⟨["FLAG"], "expected boolean"⟩]) := rfl

example :
    (do
      let e ← mkEnv P0 gEx mirrorParser srcMismatch
      e.pick ["MIRROR"])
      = Except.error (EnvError.validation [⟨["MIRROR"], "mirror must match username"⟩]) := rfl

example :
    (mkEnv P0 gEx mirrorParser srcMatch).map
      (fun e => (e.pickSchema ["MIRROR"]).checks.flatMap
        (fun c => c [("MIRROR", JsVal.str "other")]))
      = Except.ok [⟨["MIRROR"], "mirror must match username"⟩] := rfl

example :
    (mkEnv P0 gEx camelParser srcCamel).map
      (fun e => (jsGet e.camel "fooBar", jsGet e.dataRec "FOO_BAR", jsGet e.dataRec "fooBar"))
      = Except.ok (JsVal.str "fromSnake", JsVal.str "fromSnake", JsVal.str "fromCamel") := rfl

example :
    (do
      let e ← mkEnv P0 gEx omitParser srcOmit
      e.omit ["MISSING"])
      = Except.error (EnvError.undeclaredKey "MISSING") := rfl

example :
    (do
      let e ← mkEnv P0 gEx omitParser srcOmit
      let s ← e.omit ["TOKEN"]
      Except.ok (jsGet s.dataRec "PORT", jsHas s.dataRec "TOKEN", s.meta.map Prod.fst))
      = Except.ok (JsVal.num 4200, false, ["PORT", "OPTIONAL"]) := rfl

example :
    (mkEnv P0 gEx transformParser srcTransform).map
      (fun e => (e.meta.map Prod.fst, (e.metaGet "REMOVE_ME").val,
        (e.metaGet "REMOVE_ME").raw, jsGet e.dataRec "ADDED_FIELD"))
      = Except.ok (["COUNT", "REMOVE_ME"], JsVal.undef, some "bye", JsVal.str "extra") := rfl

lemma lookupNode_mem {g : SchemaGraph} {c : Nat} {d : NodeDef}
    (h : lookupNode g c = some d) : c ∈ g.map Prod.fst := by
  unfold lookupNode at h
  cases hf : List.find? (fun p => p.fst == c) g with
  | none => rw [hf] at h; simp at h
  | some p =>
    have hp := List.find?_some hf
    have hmem := List.mem_of_find?_eq_some hf
    have hpc : p.fst = c := by simpa using hp
    exact hpc ▸ List.mem_map_of_mem Prod.fst hmem

lemma unwrapStep_continue_mem {g : SchemaGraph} {c : Nat} {cur2 : Option Nat}
    (h : unwrapStep g c = some cur2) : c ∈ g.map Prod.fst := by
  cases hl : lookupNode g c with
  | some d => exact lookupNode_mem hl
  | none =>
    simp only [unwrapStep, hl] at h
    simp [getTypeTag, isInnerWrapperTag, isSchemaWrapperTag, isPipeWrapperTag] at h

lemma card_step (g : SchemaGraph) (c : Nat) (seen : List Nat) (n : Nat)
    (hdom : c ∈ g.map Prod.fst) (hseen : c ∉ seen)
    (hn : n ≤ ((g.map Prod.fst).toFinset \ (c :: seen).toFinset).card) :
    n + 1 ≤ ((g.map Prod.fst).toFinset \ seen.toFinset).card := by
  have h1 : (g.map Prod.fst).toFinset \ (c :: seen).toFinset
      = ((g.map Prod.fst).toFinset \ seen.toFinset).erase c := by
    ext x
    simp only [List.toFinset_cons, Finset.mem_sdiff, Finset.mem_erase, Finset.mem_insert,
      List.mem_toFinset]
    tauto
  have hc : c ∈ (g.map Prod.fst).toFinset \ seen.toFinset := by
    rw [Finset.mem_sdiff]
    exact ⟨List.mem_toFinset.2 hdom, fun hx => hseen (List.mem_toFinset.1 hx)⟩
  rw [h1] at hn
  have h2 := Finset.card_erase_of_mem hc
  have h3 : 0 < ((g.map Prod.fst).toFinset \ seen.toFinset).card :=
    Finset.card_pos.2 ⟨c, hc⟩
  omega

lemma unwrapGoF_none_bound (g : SchemaGraph) :
    ∀ (fuel : Nat) (cur : Option Nat) (seen : List Nat),
      unwrapGoF g fuel cur seen = none →
      fuel ≤ ((g.map Prod.fst).toFinset \ seen.toFinset).card := by
  intro fuel
  induction fuel with
  | zero => exact fun _ _ _ => Nat.zero_le _
  | succ n ih =>
    intro cur seen h
    cases cur with
    | none => simp [unwrapGoF] at h
    | some c =>
      by_cases hcon : seen.contains c = true
      · have hmem : c ∈ seen := by simpa using hcon
        simp [unwrapGoF, hmem] at h
      · simp only [unwrapGoF, hcon, Bool.false_eq_true, if_false] at h
        cases hstep : unwrapStep g c with
        | none => rw [hstep] at h; simp at h
        | some cur2 =>
          rw [hstep] at h
          have hdom := unwrapStep_continue_mem hstep
          have hseen : c ∉ seen := by
            intro hm
            exact hcon (List.elem_eq_true_of_mem hm)
          exact card_step g c seen n hdom hseen (ih cur2 (c :: seen) h)

/-- C10: the modifier-chain unwrapping terminates for every schema graph,
including self-referential or cyclic wrapper chains: a fuel budget of one
iteration per graph node plus one always suffices (every continuing iteration
records a fresh graph node in the seen-set), and revisiting an already-seen
node stops the loop immediately, returning that node.  Hence `unwrapType`, and
with it kind classification, is total over arbitrary schema graphs. -/
theorem claim_C10_unwrap_termination (g : SchemaGraph) (cur : Option Nat)
    (c : Nat) (seen : List Nat) (fuel : Nat) :
    (∃ r, unwrapGoF g (g.length + 1) cur [] = some r) ∧
    (seen.contains c = true → unwrapGoF g (fuel + 1) (some c) seen = some (some c)) := by
  constructor
  · cases hres : unwrapGoF g (g.length + 1) cur [] with
    | some r => exact ⟨r, rfl⟩
    | none =>
      have hb := unwrapGoF_none_bound g (g.length + 1) cur [] hres
      have h1 : ((g.map Prod.fst).toFinset \ ([] : List Nat).toFinset).card
          ≤ (g.map Prod.fst).length := by
        simp only [List.toFinset_nil, Finset.sdiff_empty]
        exact List.toFinset_card_le _
      have h2 : (g.map Prod.fst).length = g.length := List.length_map _ _
      omega
  · intro hc
    have hmem : c ∈ seen := by simpa using hc
    simp [unwrapGoF, hmem]

/-- Witness for C10 at a concrete cyclic graph: node 5 of `gEx` is an optional
wrapper whose inner type is itself; the loop still terminates, and revisiting
node 5 stops at once. -/
theorem claim_C10_unwrap_termination_witness :
    (([5] : List Nat).contains 5 = true) ∧
    (∃ r, unwrapGoF gEx (gEx.length + 1) (some 5) [] = some r) ∧
    unwrapGoF gEx (0 + 1) (some 5) [5] = some (some 5) :=
  ⟨rfl, (claim_C10_unwrap_termination gEx (some 5) 5 [5] 0).1,
    (claim_C10_unwrap_termination gEx (some 5) 5 [5] 0).2 rfl⟩

lemma coerce_number_passthrough (P : JsPrims) (g : SchemaGraph) (n : Option Nat) (s : String)
    (htag : fieldTypeTag g n = some "ZodNumber" ∨ fieldTypeTag g n = some "number")
    (htrim : jsTrim s ≠ "") (hnum : P.toNumber (jsTrim s) = none) :
    coerceValue P g n (some s) = JsVal.str s := by
  rcases htag with h | h <;>
    simp [coerceValue, h, tagObjectLike, isObjectLike, htrim, hnum]

lemma coerce_bool_passthrough (P : JsPrims) (g : SchemaGraph) (n : Option Nat) (s : String)
    (htag : fieldTypeTag g n = some "ZodBoolean" ∨ fieldTypeTag g n = some "boolean")
    (hmem : jsToLower (jsTrim s)
      ∉ (["true", "1", "on", "yes", "false", "0", "off", "no"] : List String)) :
    coerceValue P g n (some s) = JsVal.str s := by
  simp only [List.mem_cons, List.not_mem_nil, or_false, not_or] at hmem
  obtain ⟨h1, h2, h3, h4, h5, h6, h7, h8⟩ := hmem
  rcases htag with h | h <;>
    simp [coerceValue, h, tagObjectLike, isObjectLike, h1, h2, h3, h4, h5, h6, h7, h8]

/-- C2: coercion is total — for every field-schema node and raw input it
returns a candidate value (absent raw gives `undefined`), and every failure of
an environment primitive is absorbed locally: a raised `JSON.parse` error on
an object-like field, a NaN numeric parse, an unrecognised boolean token, and
a raised `JSON.parse` error in the unrecognized-tag fallback all pass the raw
string through unchanged. -/
theorem claim_C2_coercion_total (P : JsPrims) (g : SchemaGraph) (n : Option Nat)
    (raw : Option String) (s emsg : String) :
    (∃ v, coerceValue P g n raw = v) ∧
    (coerceValue P g n none = JsVal.undef) ∧
    (tagObjectLike (fieldTypeTag g n) = true → P.jsonParse s = Except.error emsg →
      coerceValue P g n (some s) = JsVal.str s) ∧
    ((fieldTypeTag g n = some "ZodNumber" ∨ fieldTypeTag g n = some "number") →
      jsTrim s ≠ "" → P.toNumber (jsTrim s) = none →
      coerceValue P g n (some s) = JsVal.str s) ∧
    ((fieldTypeTag g n = some "ZodBoolean" ∨ fieldTypeTag g n = some "boolean") →
      jsToLower (jsTrim s) ∉ (["true", "1", "on", "yes", "false", "0", "off", "no"] : List String) →
      coerceValue P g n (some s) = JsVal.str s) ∧
    (tagObjectLike (fieldTypeTag g n) = false → scalarTagMatch (fieldTypeTag g n) = false →
      P.jsonParse (jsTrim s) = Except.error emsg →
      coerceValue P g n (some s) = JsVal.str s) := by
  refine ⟨⟨coerceValue P g n raw, rfl⟩, rfl, ?_, ?_, ?_, ?_⟩
  · intro hobj hjson
    simp [coerceValue, mustJsonParse, hobj, hjson]
  · intro htag htrim hnum
    exact coerce_number_passthrough P g n s htag htrim hnum
  · intro htag hmem
    exact coerce_bool_passthrough P g n s htag hmem
  · intro hobj hscalar hjson
    simp only [scalarTagMatch, Bool.or_eq_false_iff, beq_eq_false_iff_ne, ne_eq] at hscalar
    obtain ⟨⟨⟨⟨⟨hn1, hn2⟩, hb1⟩, hb2⟩, hs1⟩, hs2⟩ := hscalar
    by_cases hbrace : jsTrim s ≠ "" ∧ (jsStartsWith (jsTrim s) "\x7b" || jsStartsWith (jsTrim s) "[") = true
    · obtain ⟨hne, hsw⟩ := hbrace
      simp [coerceValue, hobj, hn1, hn2, hb1, hb2, hs1, hs2, hne, hsw, hjson]
    · rw [not_and_or] at hbrace
      rcases hbrace with hne | hsw
      · rw [not_not] at hne
        simp [coerceValue, hobj, hn1, hn2, hb1, hb2, hs1, hs2, hne]
      · have hsw2 : (jsStartsWith (jsTrim s) "\x7b" || jsStartsWith (jsTrim s) "[") = false := by
          cases hx : (jsStartsWith (jsTrim s) "\x7b" || jsStartsWith (jsTrim s) "[") with
          | true => exact absurd hx hsw
          | false => rfl
        simp [coerceValue, hobj, hn1, hn2, hb1, hb2, hs1, hs2, hsw2]

/-- Witness for C2 at concrete inputs: an object-like field with a failing
`JSON.parse` passes the raw string through, a number field with a NaN parse
passes through, and the boolean field passes "maybe" through. -/
theorem claim_C2_coercion_total_witness :
    coerceValue P0 gEx (some 4) (some "nope") = JsVal.str "nope" ∧
    coerceValue P0 gEx (some 2) (some "not-a-number") = JsVal.str "not-a-number" ∧
    coerceValue P0 gEx (some 3) (some "maybe") = JsVal.str "maybe" := by
  refine ⟨?_, ?_, ?_⟩
  · exact (claim_C2_coercion_total P0 gEx (some 4) none "nope" "nope").2.2.1 rfl rfl
  · exact (claim_C2_coercion_total P0 gEx (some 2) none "not-a-number" "x").2.2.2.1
      (Or.inl rfl) (by decide) rfl
  · exact (claim_C2_coercion_total P0 gEx (some 3) none "maybe" "x").2.2.2.2.1
      (Or.inl rfl) (by decide)

/-- C3: for a boolean-classified field with a present raw string, coercion is
a case-insensitive token match on the trimmed string: the four truthy tokens
give `true`, the four falsy tokens give `false`, and anything else passes the
raw string through unchanged; concretely, `"maybe"` makes construction of a
boolean field fail validation rather than produce a boolean. -/
theorem claim_C3_boolean_tokens (P : JsPrims) (g : SchemaGraph) (n : Option Nat) (s : String)
    (hb : fieldTypeTag g n = some "ZodBoolean" ∨ fieldTypeTag g n = some "boolean") :
    (jsToLower (jsTrim s) ∈ (["true", "1", "on", "yes"] : List String) →
      coerceValue P g n (some s) = JsVal.bool true) ∧
    (jsToLower (jsTrim s) ∈ (["false", "0", "off", "no"] : List String) →
      coerceValue P g n (some s) = JsVal.bool false) ∧
    (jsToLower (jsTrim s) ∉ (["true", "1", "on", "yes", "false", "0", "off", "no"] : List String) →
      coerceValue P g n (some s) = JsVal.str s) ∧
    mkEnv P0 gEx flagParser srcMaybe
      = Except.error (EnvError.validation [⟨["FLAG"], "expected boolean"⟩]) := by
  refine ⟨?_, ?_, ?_, rfl⟩
  · intro hm
    simp only [List.mem_cons, List.not_mem_nil, or_false] at hm
    rcases hm with h1 | h1 | h1 | h1 <;>
      rcases hb with h | h <;>
        simp [coerceValue, h, tagObjectLike, isObjectLike, h1]
  · intro hm
    simp only [List.mem_cons, List.not_mem_nil, or_false] at hm
    rcases hm with h1 | h1 | h1 | h1 <;>
      rcases hb with h | h <;>
        simp [coerceValue, h, tagObjectLike, isObjectLike, h1]
  · intro hm
    exact coerce_bool_passthrough P g n s hb hm

/-- Witness for C3: the full token table evaluated on the concrete boolean
node of `gEx`, plus pass-through of "maybe". -/
theorem claim_C3_boolean_tokens_witness :
    coerceValue P0 gEx (some 3) (some " YeS ") = JsVal.bool true ∧
    coerceValue P0 gEx (some 3) (some "1") = JsVal.bool true ∧
    coerceValue P0 gEx (some 3) (some "on") = JsVal.bool true ∧
    coerceValue P0 gEx (some 3) (some "TRUE") = JsVal.bool true ∧
    coerceValue P0 gEx (some 3) (some "off") = JsVal.bool false ∧
    coerceValue P0 gEx (some 3) (some "0") = JsVal.bool false ∧
    coerceValue P0 gEx (some 3) (some "no") = JsVal.bool false ∧
    coerceValue P0 gEx (some 3) (some "False") = JsVal.bool false ∧
    coerceValue P0 gEx (some 3) (some "maybe") = JsVal.str "maybe" := by
  have h := fun s => claim_C3_boolean_tokens P0 gEx (some 3) s (Or.inl rfl)
  exact ⟨(h " YeS ").1 (by decide), (h "1").1 (by decide), (h "on").1 (by decide),
    (h "TRUE").1 (by decide), (h "off").2.1 (by decide), (h "0").2.1 (by decide),
    (h "no").2.1 (by decide), (h "False").2.1 (by decide), (h "maybe").2.2.1 (by decide)⟩

/-- C4: for a number-classified field with a present raw string, coercion
trims the string; an empty trim passes the raw value through; otherwise the
numeric parse result is used, with parse failure passing the raw string
through; concretely `" 8080 "` yields the number `8080`. -/
theorem claim_C4_number_coercion (P : JsPrims) (g : SchemaGraph) (n : Option Nat)
    (s : String) (q : Int)
    (hn : fieldTypeTag g n = some "ZodNumber" ∨ fieldTypeTag g n = some "number") :
    (jsTrim s = "" → coerceValue P g n (some s) = JsVal.str s) ∧
    (jsTrim s ≠ "" → P.toNumber (jsTrim s) = some q →
      coerceValue P g n (some s) = JsVal.num q) ∧
    (jsTrim s ≠ "" → P.toNumber (jsTrim s) = none →
      coerceValue P g n (some s) = JsVal.str s) ∧
    coerceValue P0 gEx (some 2) (some " 8080 ") = JsVal.num 8080 := by
  refine ⟨?_, ?_, ?_, rfl⟩
  · intro htrim
    rcases hn with h | h <;>
      simp [coerceValue, h, tagObjectLike, isObjectLike, htrim]
  · intro htrim hq
    rcases hn with h | h <;>
      simp [coerceValue, h, tagObjectLike, isObjectLike, htrim, hq]
  · intro htrim hq
    exact coerce_number_passthrough P g n s hn htrim hq

/-- Witness for C4: `" 8080 "` parses to `8080` via the theorem's successful
branch, the all-blank raw passes through, and a failing parse passes
through, all at the concrete number node. -/
theorem claim_C4_number_coercion_witness :
    coerceValue P0 gEx (some 2) (some " 8080 ") = JsVal.num 8080 ∧
    coerceValue P0 gEx (some 2) (some "   ") = JsVal.str "   " ∧
    coerceValue P0 gEx (some 2) (some "4x2") = JsVal.str "4x2" := by
  have h8080 := claim_C4_number_coercion P0 gEx (some 2) " 8080 " 8080 (Or.inl rfl)
  have hblank := claim_C4_number_coercion P0 gEx (some 2) "   " 0 (Or.inl rfl)
  have hbad := claim_C4_number_coercion P0 gEx (some 2) "4x2" 0 (Or.inl rfl)
  exact ⟨h8080.2.1 (by decide) rfl, hblank.1 rfl, hbad.2.2.1 (by decide) rfl⟩

lemma jsGet_cons_self (k : String) (v : JsVal) (rest : JsRecord) :
    jsGet ((k, v) :: rest) k = v := by
  simp [jsGet]

lemma jsGet_cons_ne {k k0 : String} (hk : k0 ≠ k) (v0 : JsVal) (rest : JsRecord) :
    jsGet ((k0, v0) :: rest) k = jsGet rest k := by
  have hb : (k0 == k) = false := by simpa using hk
  unfold jsGet
  rw [List.find?_cons]
  simp [hb]

lemma jsHas_cons_ne {k k0 : String} (hk : k0 ≠ k) (v0 : JsVal) (rest : JsRecord) :
    jsHas ((k0, v0) :: rest) k = jsHas rest k := by
  have hb : (k0 == k) = false := by simpa using hk
  unfold jsHas
  rw [List.find?_cons]
  simp [hb]

lemma jsGet_append_left {a : JsRecord} {k : String} (h : jsHas a k = true) (b : JsRecord) :
    jsGet (a ++ b) k = jsGet a k := by
  unfold jsGet
  rw [List.find?_append]
  unfold jsHas at h
  cases hf : List.find? (fun p => p.fst == k) a with
  | none => rw [hf] at h; simp at h
  | some p => simp [hf]

lemma jsGet_append_right {a : JsRecord} {k : String} (h : jsHas a k = false) (b : JsRecord) :
    jsGet (a ++ b) k = jsGet b k := by
  unfold jsGet
  rw [List.find?_append]
  unfold jsHas at h
  cases hf : List.find? (fun p => p.fst == k) a with
  | none => simp [hf]
  | some p => rw [hf] at h; simp at h

lemma jsHas_append {a b : JsRecord} {k : String} :
    jsHas (a ++ b) k = (jsHas a k || jsHas b k) := by
  unfold jsHas
  rw [List.find?_append]
  cases hf : List.find? (fun p => p.fst == k) a <;> simp [hf]

lemma jsGet_not_has {a : JsRecord} {k : String} (h : jsHas a k = false) :
    jsGet a k = JsVal.undef := by
  unfold jsHas at h
  unfold jsGet
  cases hf : List.find? (fun p => p.fst == k) a with
  | none => rfl
  | some p => rw [hf] at h; simp at h

lemma find?_map_self {β : Type} (w : String → β) :
    ∀ (ks : List String) (k : String), k ∈ ks →
      List.find? (fun p => p.fst == k) (ks.map (fun k2 => (k2, w k2))) = some (k, w k) := by
  intro ks
  induction ks with
  | nil => intro k hk; simp at hk
  | cons k0 rest ih =>
    intro k hk
    by_cases he : k0 = k
    · subst he
      simp
    · have hb : (k0 == k) = false := by simpa using he
      rw [List.map_cons, List.find?_cons]
      simp only [hb, Bool.false_eq_true, if_false]
      rcases List.mem_cons.1 hk with h | h
      · exact absurd h.symm he
      · exact ih k h

lemma jsGet_map_self (w : String → JsVal) (ks : List String) (k : String) (hk : k ∈ ks) :
    jsGet (ks.map (fun k2 => (k2, w k2))) k = w k := by
  unfold jsGet
  rw [find?_map_self w ks k hk]

lemma jsHas_map_self (w : String → JsVal) (ks : List String) (k : String) (hk : k ∈ ks) :
    jsHas (ks.map (fun k2 => (k2, w k2))) k = true := by
  unfold jsHas
  rw [find?_map_self w ks k hk]
  rfl

lemma metaGet_declared (e : EnvState) (w : String → EnvVarMeta)
    (hmeta : e.meta = e.declaredKeys.map (fun k => (k, w k))) (k : String)
    (hk : k ∈ e.declaredKeys) : e.metaGet k = w k := by
  unfold EnvState.metaGet
  rw [hmeta, find?_map_self w _ k hk]

lemma jsGet_append_single_ne {acc : JsRecord} {k k0 : String} (hne : k0 ≠ k) (v : JsVal) :
    jsGet (acc ++ [(k0, v)]) k = jsGet acc k := by
  cases hh : jsHas acc k with
  | false =>
    rw [jsGet_append_right hh, jsGet_not_has hh, jsGet_cons_ne hne]
    rfl
  | true => rw [jsGet_append_left hh]

lemma zparseFields_ok_validate {c : JsRecord} :
    ∀ {shape : List (String × Field)}, (zparseFields c shape).fst = [] →
      ∀ kf ∈ shape, ∃ v, kf.snd.validate (jsGet c kf.fst) = Except.ok v := by
  intro shape
  induction shape with
  | nil => intro _ kf hkf; simp at hkf
  | cons hd rest ih =>
    intro h kf hkf
    obtain ⟨k0, f0⟩ := hd
    cases hv : f0.validate (jsGet c k0) with
    | error i => simp [zparseFields, hv] at h
    | ok v0 =>
      rcases List.mem_cons.1 hkf with h1 | h1
      · subst h1; exact ⟨v0, hv⟩
      · apply ih ?_ kf h1
        simp only [zparseFields, hv] at h
        exact h

lemma zparseFields_ok_get {c : JsRecord} :
    ∀ {shape : List (String × Field)} {k : String} {f : Field} {v : JsVal},
      (zparseFields c shape).fst = [] →
      (shape.map Prod.fst).Nodup →
      (k, f) ∈ shape →
      f.validate (jsGet c k) = Except.ok v →
      jsGet (zparseFields c shape).snd k = v := by
  intro shape
  induction shape with
  | nil => intro k f v _ _ hm _; simp at hm
  | cons hd rest ih =>
    intro k f v hok hnd hm hv
    obtain ⟨k0, f0⟩ := hd
    cases hv0 : f0.validate (jsGet c k0) with
    | error i => simp [zparseFields, hv0] at hok
    | ok v0 =>
      simp only [zparseFields, hv0] at hok ⊢
      rcases List.mem_cons.1 hm with h1 | h1
      · have hk : k = k0 := congrArg Prod.fst h1
        have hf : f = f0 := congrArg Prod.snd h1
        subst hk
        subst hf
        rw [jsGet_cons_self]
        rw [hv] at hv0
        exact (Except.ok.injEq _ _ ▸ congrArg id hv0).symm ▸ rfl
      · rw [List.map_cons, List.nodup_cons] at hnd
        have hkr : k ∈ rest.map Prod.fst := List.mem_map_of_mem Prod.fst h1
        have hne : k0 ≠ k := fun he => hnd.1 (he ▸ hkr)
        rw [jsGet_cons_ne hne]
        exact ih hok hnd.2 h1 hv

lemma mkEnv_ok_parts {P : JsPrims} {g : SchemaGraph} {parser : ZParser}
    {source : String → Option String} {e : EnvState}
    (h : mkEnv P g parser source = Except.ok e) :
    e.parser = parser ∧ e.source = source ∧
    buildValues P g parser source = Except.ok e.parsedRecord ∧
    e.meta = (parser.base.shape.map Prod.fst).map
      (fun k => (k, ⟨k, jsGet e.parsedRecord k, source k⟩)) ∧
    e.dataRec = addExtras (parser.base.shape.map Prod.fst) e.parsedRecord
      (jsKeys e.parsedRecord)
      ((parser.base.shape.map Prod.fst).map (fun k => (k, jsGet e.parsedRecord k))) ∧
    e.camel = buildCamelExtras (parser.base.shape.map Prod.fst) e.parsedRecord
      (jsKeys e.parsedRecord)
      (buildCamelDecl e.parsedRecord (parser.base.shape.map Prod.fst) []) ∧
    e.prims = P ∧ e.graph = g := by
  unfold mkEnv at h
  cases hb : buildValues P g parser source with
  | error i => rw [hb] at h; simp at h
  | ok parsed =>
    rw [hb] at h
    simp only [Except.ok.injEq] at h
    subst h
    exact ⟨rfl, rfl, rfl, rfl, rfl, rfl, rfl, rfl⟩

lemma buildValues_plain_ok {P : JsPrims} {g : SchemaGraph} {base : ZObject}
    {source : String → Option String} {parsed : JsRecord}
    (h : buildValues P g ⟨base, none⟩ source = Except.ok parsed) :
    zparse base (candidateOf P g base.shape source) = Except.ok parsed := by
  unfold buildValues ZParser.parse at h
  cases hz : zparse base (candidateOf P g base.shape source) with
  | error i => rw [hz] at h; simp [Except.map] at h
  | ok r =>
    rw [hz] at h
    simpa [Except.map] using h

lemma zparse_ok_parts {o : ZObject} {c rec : JsRecord}
    (h : zparse o c = Except.ok rec) :
    (zparseFields c o.shape).fst = [] ∧ rec = (zparseFields c o.shape).snd := by
  simp only [zparse] at h
  by_cases h1 : (zparseFields c o.shape).fst.isEmpty = true
  · rw [if_pos h1] at h
    by_cases h2 : (o.checks.flatMap (fun ch => ch (zparseFields c o.shape).snd)).isEmpty = true
    · rw [if_pos h2] at h
      simp only [Except.ok.injEq] at h
      exact ⟨List.isEmpty_iff.1 h1, h.symm⟩
    · rw [if_neg h2] at h
      simp at h
  · rw [if_neg h1] at h
    simp at h

lemma jsGet_addExtras_declared {declared : List String} {parsed : JsRecord} {k : String}
    (hin : k ∈ declared) :
    ∀ (ks : List String) (acc : JsRecord),
      jsGet (addExtras declared parsed ks acc) k = jsGet acc k := by
  intro ks
  induction ks with
  | nil => intro acc; rfl
  | cons k0 rest ih =>
    intro acc
    by_cases h0 : declared.contains k0 = true
    · simp only [addExtras, h0, if_true]
      exact ih acc
    · have h0f : declared.contains k0 = false := by
        cases hx : declared.contains k0 with
        | true => exact absurd hx h0
        | false => rfl
      simp only [addExtras, h0f, Bool.false_eq_true, if_false]
      by_cases hh : jsHas acc k0 = true
      · simp only [hh, if_true]
        exact ih acc
      · have hhf : jsHas acc k0 = false := by
          cases hx : jsHas acc k0 with
          | true => exact absurd hx hh
          | false => rfl
        simp only [hhf, Bool.false_eq_true, if_false]
        have hne : k0 ≠ k := by
          intro he
          subst he
          exact h0 (by simpa using hin)
        rw [ih (acc ++ [(k0, jsGet parsed k0)]), jsGet_append_single_ne hne]

lemma coerce_string_class {P : JsPrims} {g : SchemaGraph} {n : Option Nat}
    (h : fieldTypeTag g n = some "ZodString" ∨ fieldTypeTag g n = some "string") (s : String) :
    coerceValue P g n (some s) = JsVal.str s := by
  rcases h with h | h <;> simp [coerceValue, h, tagObjectLike, isObjectLike]

lemma jsGet_map_pairs (F : (String × Field) → JsVal) :
    ∀ {shape : List (String × Field)} {k : String} {f : Field},
      (shape.map Prod.fst).Nodup → (k, f) ∈ shape →
      jsGet (shape.map (fun kf => (kf.fst, F kf))) k = F (k, f) := by
  intro shape
  induction shape with
  | nil => intro k f _ hm; simp at hm
  | cons hd rest ih =>
    intro k f hnd hm
    obtain ⟨k0, f0⟩ := hd
    rw [List.map_cons, List.nodup_cons] at hnd
    rw [List.map_cons]
    rcases List.mem_cons.1 hm with h1 | h1
    · have hk : k = k0 := congrArg Prod.fst h1
      subst hk
      have hf : f = f0 := congrArg Prod.snd h1
      subst hf
      exact jsGet_cons_self _ _ _
    · have hkr : k ∈ rest.map Prod.fst := List.mem_map_of_mem Prod.fst h1
      have hne : k0 ≠ k := fun he => hnd.1 (he ▸ hkr)
      rw [jsGet_cons_ne hne]
      exact ih hnd.2 h1

/-- C5: round-trip for string fields — with a plain (untransformed) parser and
a string-classified field whose validator passes strings and `undefined`
through (the behaviour of the engine's optional/plain string schema), a
present raw string appears unchanged (untrimmed) in the data view and in the
metadata raw slot, while an absent source entry yields data `undefined` and
meta raw `undefined`. -/
theorem claim_C5_string_roundtrip (P : JsPrims) (g : SchemaGraph) (base : ZObject)
    (source : String → Option String) (e : EnvState) (k : String) (f : Field) (s : String)
    (hok : mkEnv P g ⟨base, none⟩ source = Except.ok e)
    (hnd : (base.shape.map Prod.fst).Nodup)
    (hm : (k, f) ∈ base.shape)
    (hcls : fieldTypeTag g f.node = some "ZodString" ∨ fieldTypeTag g f.node = some "string")
    (hvs : ∀ t, f.validate (JsVal.str t) = Except.ok (JsVal.str t))
    (hvu : f.validate JsVal.undef = Except.ok JsVal.undef) :
    (source k = some s →
      jsGet e.dataRec k = JsVal.str s ∧ (e.metaGet k).raw = some s) ∧
    (source k = none →
      jsGet e.dataRec k = JsVal.undef ∧ (e.metaGet k).raw = none) := by
  obtain ⟨hparser, hsource, hbv, hmeta, hdata, hcamel, hprims, hgraph⟩ := mkEnv_ok_parts hok
  have hz := buildValues_plain_ok hbv
  obtain ⟨hfe, hrec⟩ := zparse_ok_parts hz
  have hkdecl : k ∈ base.shape.map Prod.fst := List.mem_map_of_mem Prod.fst hm
  have hdk : e.declaredKeys = base.shape.map Prod.fst := by
    unfold EnvState.declaredKeys
    rw [hparser]
  have hcand : jsGet (candidateOf P g base.shape source) k
      = coerceValue P g f.node (source k) := by
    unfold candidateOf
    exact jsGet_map_pairs (fun kf => coerceValue P g kf.snd.node (source kf.fst)) hnd hm
  have hmetaAt : e.metaGet k = ⟨k, jsGet e.parsedRecord k, source k⟩ := by
    apply metaGet_declared e (fun k2 => ⟨k2, jsGet e.parsedRecord k2, source k2⟩)
    · rw [hdk]
      exact hmeta
    · rw [hdk]
      exact hkdecl
  have hdataAt : jsGet e.dataRec k = jsGet e.parsedRecord k := by
    rw [hdata, jsGet_addExtras_declared hkdecl,
      jsGet_map_self (fun k2 => jsGet e.parsedRecord k2) _ k hkdecl]
  constructor
  · intro hsrc
    have hcv : jsGet (candidateOf P g base.shape source) k = JsVal.str s := by
      rw [hcand, hsrc, coerce_string_class hcls]
    have hval : f.validate (jsGet (candidateOf P g base.shape source) k)
        = Except.ok (JsVal.str s) := by
      rw [hcv]
      exact hvs s
    have hparsed : jsGet e.parsedRecord k = JsVal.str s := by
      rw [hrec]
      exact zparseFields_ok_get hfe hnd hm hval
    refine ⟨?_, ?_⟩
    · rw [hdataAt, hparsed]
    · rw [hmetaAt, hsrc]
  · intro hsrc
    have hcv : jsGet (candidateOf P g base.shape source) k = JsVal.undef := by
      rw [hcand, hsrc]
      rfl
    have hval : f.validate (jsGet (candidateOf P g base.shape source) k)
        = Except.ok JsVal.undef := by
      rw [hcv]
      exact hvu
    have hparsed : jsGet e.parsedRecord k = JsVal.undef := by
      rw [hrec]
      exact zparseFields_ok_get hfe hnd hm hval
    refine ⟨?_, ?_⟩
    · rw [hdataAt, hparsed]
    · rw [hmetaAt, hsrc]

/-- Witness for C5: the blank optional string stays `"   "` in data with raw
`"   "`, while an empty source yields `undefined` data and `undefined` raw. -/
theorem claim_C5_string_roundtrip_witness :
    (jsGet envBlank.dataRec "OPTIONAL" = JsVal.str "   " ∧
      (envBlank.metaGet "OPTIONAL").raw = some "   ") ∧
    (jsGet envNone.dataRec "OPTIONAL" = JsVal.undef ∧
      (envNone.metaGet "OPTIONAL").raw = none) := by
  have hb := claim_C5_string_roundtrip P0 gEx optSchema srcBlank envBlank
    "OPTIONAL" fOptString "   " rfl (List.nodup_singleton _) (List.mem_singleton.2 rfl)
    (Or.inl rfl) (fun t => rfl) rfl
  have hn := claim_C5_string_roundtrip P0 gEx optSchema srcNone envNone
    "OPTIONAL" fOptString "" rfl (List.nodup_singleton _) (List.mem_singleton.2 rfl)
    (Or.inl rfl) (fun t => rfl) rfl
  exact ⟨hb.1 rfl, hn.2 rfl⟩

/-- C7: after any successful construction the metadata view lists exactly the
declared schema keys (in declaration order, never transform-added keys); each
entry carries its own key as `name` and the unmodified raw source value; and a
declared key missing from the validated record (e.g. removed by a transform)
has `val = undefined`. -/
theorem claim_C7_meta_invariants (P : JsPrims) (g : SchemaGraph) (parser : ZParser)
    (source : String → Option String) (e : EnvState) (k : String)
    (hok : mkEnv P g parser source = Except.ok e) :
    e.meta.map Prod.fst = parser.base.shape.map Prod.fst ∧
    (∀ m, (k, m) ∈ e.meta → m.name = k ∧ m.raw = source k) ∧
    (k ∈ parser.base.shape.map Prod.fst → jsHas e.parsedRecord k = false →
      e.metaGet k = ⟨k, JsVal.undef, source k⟩) := by
  obtain ⟨hparser, hsource, hbv, hmeta, hdata, hcamel, hprims, hgraph⟩ := mkEnv_ok_parts hok
  have hdk : e.declaredKeys = parser.base.shape.map Prod.fst := by
    unfold EnvState.declaredKeys
    rw [hparser]
  refine ⟨?_, ?_, ?_⟩
  · rw [hmeta, List.map_map]
    simp [Function.comp]
  · intro m hmem
    rw [hmeta] at hmem
    obtain ⟨k2, _, hk2⟩ := List.mem_map.1 hmem
    have hkk : k2 = k := congrArg Prod.fst hk2
    subst hkk
    have hmm : (⟨k2, jsGet e.parsedRecord k2, source k2⟩ : EnvVarMeta) = m :=
      congrArg Prod.snd hk2
    rw [← hmm]
    exact ⟨rfl, rfl⟩
  · intro hdecl hhas
    have hmetaAt : e.metaGet k = ⟨k, jsGet e.parsedRecord k, source k⟩ := by
      apply metaGet_declared e (fun k2 => ⟨k2, jsGet e.parsedRecord k2, source k2⟩)
      · rw [hdk]
        exact hmeta
      · rw [hdk]
        exact hdecl
    rw [hmetaAt, jsGet_not_has hhas]

/-- Witness for C7 on the transform fixture: `REMOVE_ME` is dropped from the
validated record by the transform yet keeps its metadata entry with
`val = undefined` and its raw source string; `ADDED_FIELD` never enters the
metadata list. -/
theorem claim_C7_meta_invariants_witness :
    envTransform.meta.map Prod.fst = ["COUNT", "REMOVE_ME"] ∧
    envTransform.metaGet "REMOVE_ME"
      = ⟨"REMOVE_ME", JsVal.undef, some "bye"⟩ := by
  have h := claim_C7_meta_invariants P0 gEx transformParser srcTransform envTransform
    "REMOVE_ME" rfl
  refine ⟨?_, ?_⟩
  · rw [h.1]
    rfl
  · exact h.2.2 (by decide) rfl

/-- C8: `omit` validates every given key against the declared schema keys and
fails with the undeclared-key error naming the first offending key — before
any narrowing work happens; when all keys are declared it delegates to `pick`,
so the result equals `pick` of the complementary key set (in declaration
order). -/
theorem claim_C8_omit (e : EnvState) (keys : List String) (b : String) :
    (List.find? (fun k => !((e.parser.base.shape.map Prod.fst).contains k)) keys = some b →
      e.omit keys = Except.error (EnvError.undeclaredKey b)) ∧
    ((∀ k ∈ keys, k ∈ e.parser.base.shape.map Prod.fst) →
      e.omit keys
        = e.pick ((e.parser.base.shape.map Prod.fst).filter (fun k => !(keys.contains k)))) := by
  constructor
  · intro h
    unfold EnvState.omit
    simp only [h]
  · intro h
    have hf : List.find? (fun k => !((e.parser.base.shape.map Prod.fst).contains k)) keys
        = none := by
      rw [List.find?_eq_none]
      intro x hx
      simp [h x hx]
    unfold EnvState.omit
    simp only [hf]

/-- Witness for C8 on the `{PORT, TOKEN, OPTIONAL}` fixture: omitting the
never-declared `MISSING` fails naming `"MISSING"`, and omitting `TOKEN`
equals picking the complement `["PORT", "OPTIONAL"]`. -/
theorem claim_C8_omit_witness :
    envOmit.omit ["MISSING"] = Except.error (EnvError.undeclaredKey "MISSING") ∧
    envOmit.omit ["TOKEN"] = envOmit.pick ["PORT", "OPTIONAL"] := by
  have h1 := (claim_C8_omit envOmit ["MISSING"] "MISSING").1 rfl
  have h2 := (claim_C8_omit envOmit ["TOKEN"] "").2 (by decide)
  exact ⟨h1, h2⟩

lemma bool_eq_false {b : Bool} (h : ¬ b = true) : b = false := by
  cases b with
  | false => rfl
  | true => exact absurd rfl h

lemma jsHas_nil (c : String) : jsHas [] c = false := rfl

lemma jsHas_singleton_self (k : String) (v : JsVal) : jsHas [(k, v)] k = true := by
  simp [jsHas]

lemma jsHas_append_single_ne {acc : JsRecord} {c k0 : String} (hne : k0 ≠ c) (v : JsVal) :
    jsHas (acc ++ [(k0, v)]) c = jsHas acc c := by
  rw [jsHas_append, jsHas_cons_ne hne, jsHas_nil, Bool.or_false]

lemma head?_mem {α : Type} {l : List α} {a : α} (h : l.head? = some a) : a ∈ l := by
  cases l with
  | nil => simp at h
  | cons x xs =>
    simp only [List.head?_cons, Option.some.injEq] at h
    subst h
    exact List.mem_cons_self _ _

lemma buildCamelDecl_get (parsed : JsRecord) (c : String) :
    ∀ (declared : List String) (acc : JsRecord),
      jsGet (buildCamelDecl parsed declared acc) c =
        match camelProvider parsed declared c with
        | some k => if jsHas acc c = true then jsGet acc c else jsGet parsed k
        | none => jsGet acc c := by
  intro declared
  induction declared with
  | nil => intro acc; simp [buildCamelDecl, camelProvider]
  | cons k0 rest ih =>
    intro acc
    by_cases hp0 : jsHas parsed k0 = true
    · by_cases hck : (snakeToCamelKey k0 == c) = true
      · have hc : snakeToCamelKey k0 = c := by simpa using hck
        have hprov : camelProvider parsed (k0 :: rest) c = some k0 := by
          simp [camelProvider, List.filter_cons, hp0, hck]
        rw [hprov]
        simp only [buildCamelDecl, hp0, if_true, hc]
        by_cases hac : jsHas acc c = true
        · simp only [hac, if_true]
          rw [ih acc]
          cases hpr : camelProvider parsed rest c <;> simp [hac]
        · simp only [bool_eq_false hac, Bool.false_eq_true, if_false]
          rw [ih (acc ++ [(c, jsGet parsed k0)])]
          have hhas : jsHas (acc ++ [(c, jsGet parsed k0)]) c = true := by
            rw [jsHas_append, jsHas_singleton_self, Bool.or_true]
          have hget : jsGet (acc ++ [(c, jsGet parsed k0)]) c = jsGet parsed k0 := by
            rw [jsGet_append_right (bool_eq_false hac), jsGet_cons_self]
          cases hpr : camelProvider parsed rest c <;> simp [hhas, hget]
      · have hne : snakeToCamelKey k0 ≠ c := fun he => hck (by simp [he])
        have hprov : camelProvider parsed (k0 :: rest) c = camelProvider parsed rest c := by
          simp [camelProvider, List.filter_cons, hp0, bool_eq_false hck]
        rw [hprov]
        simp only [buildCamelDecl, hp0, if_true]
        by_cases hk : jsHas acc (snakeToCamelKey k0) = true
        · simp only [hk, if_true]
          exact ih acc
        · simp only [bool_eq_false hk, Bool.false_eq_true, if_false]
          rw [ih (acc ++ [(snakeToCamelKey k0, jsGet parsed k0)])]
          have hhas : jsHas (acc ++ [(snakeToCamelKey k0, jsGet parsed k0)]) c = jsHas acc c :=
            jsHas_append_single_ne hne _
          have hget : jsGet (acc ++ [(snakeToCamelKey k0, jsGet parsed k0)]) c = jsGet acc c :=
            jsGet_append_single_ne hne _
          cases hpr : camelProvider parsed rest c <;> simp [hhas, hget]
    · have hprov : camelProvider parsed (k0 :: rest) c = camelProvider parsed rest c := by
        simp [camelProvider, List.filter_cons, bool_eq_false hp0]
      rw [hprov]
      simp only [buildCamelDecl, bool_eq_false hp0, Bool.false_eq_true, if_false]
      exact ih acc

lemma buildCamelDecl_has_mono (parsed : JsRecord) (c : String) :
    ∀ (declared : List String) (acc : JsRecord), jsHas acc c = true →
      jsHas (buildCamelDecl parsed declared acc) c = true := by
  intro declared
  induction declared with
  | nil => intro acc h; exact h
  | cons k0 rest ih =>
    intro acc h
    simp only [buildCamelDecl]
    by_cases hp0 : jsHas parsed k0 = true
    · simp only [hp0, if_true]
      by_cases hk : jsHas acc (snakeToCamelKey k0) = true
      · simp only [hk, if_true]
        exact ih acc h
      · simp only [bool_eq_false hk, Bool.false_eq_true, if_false]
        apply ih
        rw [jsHas_append, h, Bool.true_or]
    · simp only [bool_eq_false hp0, Bool.false_eq_true, if_false]
      exact ih acc h

lemma buildCamelDecl_has_provider (parsed : JsRecord) (c k1 : String)
    (hpred : (jsHas parsed k1 && (snakeToCamelKey k1 == c)) = true) :
    ∀ (declared : List String) (acc : JsRecord), k1 ∈ declared →
      jsHas (buildCamelDecl parsed declared acc) c = true := by
  obtain ⟨hp1, hc1⟩ := Bool.and_eq_true_iff.1 hpred
  have hc1e : snakeToCamelKey k1 = c := by simpa using hc1
  intro declared
  induction declared with
  | nil => intro acc h; simp at h
  | cons k0 rest ih =>
    intro acc hm
    simp only [buildCamelDecl]
    by_cases hp0 : jsHas parsed k0 = true
    · simp only [hp0, if_true]
      by_cases hk : jsHas acc (snakeToCamelKey k0) = true
      · simp only [hk, if_true]
        rcases List.mem_cons.1 hm with h1 | h1
        · subst h1
          exact buildCamelDecl_has_mono parsed c rest acc (hc1e ▸ hk)
        · exact ih acc h1
      · simp only [bool_eq_false hk, Bool.false_eq_true, if_false]
        rcases List.mem_cons.1 hm with h1 | h1
        · subst h1
          apply buildCamelDecl_has_mono
          rw [hc1e, jsHas_append, jsHas_singleton_self, Bool.or_true]
        · exact ih _ h1
    · rcases List.mem_cons.1 hm with h1 | h1
      · subst h1
        exact absurd hp1 hp0
      · simp only [bool_eq_false hp0, Bool.false_eq_true, if_false]
        exact ih acc h1

lemma buildCamelExtras_pres (declared : List String) (parsed : JsRecord) (c : String) :
    ∀ (ks : List String) (acc : JsRecord), jsHas acc c = true →
      jsGet (buildCamelExtras declared parsed ks acc) c = jsGet acc c := by
  intro ks
  induction ks with
  | nil => intro acc _; rfl
  | cons k0 rest ih =>
    intro acc h
    simp only [buildCamelExtras]
    by_cases hd : declared.contains k0 = true
    · simp only [hd, if_true]
      exact ih acc h
    · simp only [bool_eq_false hd, Bool.false_eq_true, if_false]
      by_cases hk : jsHas acc (snakeToCamelKey k0) = true
      · simp only [hk, if_true]
        exact ih acc h
      · simp only [bool_eq_false hk, Bool.false_eq_true, if_false]
        have hne : snakeToCamelKey k0 ≠ c := fun he => hk (he ▸ h)
        rw [ih _ (by rw [jsHas_append_single_ne hne]; exact h), jsGet_append_single_ne hne]

/-- C6: when several declared keys normalise to the same camelCase name, the
camel view exposes the first-declared such key's value (later colliding keys
are silently skipped, with no error and no overwrite), while the data view
keeps every declared key independently accessible under its original name. -/
theorem claim_C6_camel_collision (P : JsPrims) (g : SchemaGraph) (parser : ZParser)
    (source : String → Option String) (e : EnvState) (c k1 : String)
    (hok : mkEnv P g parser source = Except.ok e)
    (hfirst : camelProvider e.parsedRecord (parser.base.shape.map Prod.fst) c = some k1) :
    jsGet e.camel c = jsGet e.parsedRecord k1 ∧
    (∀ k, k ∈ parser.base.shape.map Prod.fst →
      jsGet e.dataRec k = jsGet e.parsedRecord k) := by
  obtain ⟨hparser, hsource, hbv, hmeta, hdata, hcamel, hprims, hgraph⟩ := mkEnv_ok_parts hok
  constructor
  · have hk1mem := head?_mem hfirst
    obtain ⟨hk1decl, hk1pred⟩ := List.mem_filter.1 hk1mem
    have hhas0 : jsHas (buildCamelDecl e.parsedRecord (parser.base.shape.map Prod.fst) []) c
        = true :=
      buildCamelDecl_has_provider e.parsedRecord c k1 hk1pred _ [] hk1decl
    rw [hcamel, buildCamelExtras_pres _ _ _ _ _ hhas0,
      buildCamelDecl_get e.parsedRecord c _ [], hfirst]
    simp [jsHas_nil]
  · intro k hk
    rw [hdata, jsGet_addExtras_declared hk,
      jsGet_map_self (fun k2 => jsGet e.parsedRecord k2) _ k hk]

/-- Witness for C6 on the `FOO_BAR`/`fooBar` fixture: the camel view's
`fooBar` carries `FOO_BAR`'s value (first declared), and both original keys
stay independently readable in the data view. -/
theorem claim_C6_camel_collision_witness :
    jsGet envCamel.camel "fooBar" = JsVal.str "fromSnake" ∧
    jsGet envCamel.dataRec "FOO_BAR" = JsVal.str "fromSnake" ∧
    jsGet envCamel.dataRec "fooBar" = JsVal.str "fromCamel" := by
  have h := claim_C6_camel_collision P0 gEx camelParser srcCamel envCamel
    "fooBar" "FOO_BAR" rfl rfl
  refine ⟨?_, ?_, ?_⟩
  · rw [h.1]
    rfl
  · rw [h.2 "FOO_BAR" (by decide)]
    rfl
  · rw [h.2 "fooBar" (by decide)]
    rfl

lemma buildSnapshot_eq_spec (parentData : JsRecord) (picked : List String) :
    ∀ (baseKeys : List String) (data : JsRecord), baseKeys.Nodup →
      buildSnapshot parentData picked baseKeys data
        = specSnapshot baseKeys picked parentData data := by
  intro baseKeys
  induction baseKeys with
  | nil => intro data _; simp [buildSnapshot, specSnapshot]
  | cons k0 rest ih =>
    intro data hnd
    rw [List.nodup_cons] at hnd
    by_cases hp : picked.contains k0 = true
    · simp only [buildSnapshot, specSnapshot, List.filter_cons, hp, Bool.not_true,
        Bool.false_and, if_true, Bool.false_eq_true, if_false]
      rw [ih data hnd.2]
      rfl
    · by_cases hh : jsHas data k0 = true
      · simp only [buildSnapshot, specSnapshot, List.filter_cons, bool_eq_false hp, hh,
          Bool.not_true, Bool.not_false, Bool.true_and, Bool.false_eq_true, if_false, if_true]
        rw [ih data hnd.2]
        rfl
      · simp only [buildSnapshot, specSnapshot, List.filter_cons, bool_eq_false hp,
          bool_eq_false hh, Bool.not_false, Bool.true_and, Bool.false_eq_true, if_false,
          if_true, List.map_cons]
        rw [ih (data ++ [(k0, jsGet parentData k0)]) hnd.2]
        have hfeq : rest.filter
            (fun k => !(picked.contains k)
              && !(jsHas (data ++ [(k0, jsGet parentData k0)]) k))
            = rest.filter (fun k => !(picked.contains k) && !(jsHas data k)) := by
          apply List.filter_congr
          intro x hx
          have hne : k0 ≠ x := fun he => hnd.1 (he ▸ hx)
          rw [jsHas_append_single_ne hne]
        unfold specSnapshot
        rw [hfeq, List.append_assoc]
        rfl

lemma pickSchema_checks (e : EnvState) (keys : List String)
    (hne : e.parser.base.checks ≠ []) :
    (e.pickSchema keys).checks
      = [reattachedCheck (e.parser.base.shape.map Prod.fst) keys e.dataRec
          e.parser.base.checks] := by
  unfold EnvState.pickSchema
  have hlen : e.parser.base.checks.length > 0 := List.length_pos.2 hne
  simp only [hlen, if_true]

/-- C1: on a schema carrying whole-object checks, `pick` attaches exactly one
re-attached check to the narrowed schema, and that check runs every base
check against the synthetic full-record snapshot obtained by merging the
narrowed validated input with the parent instance's already-validated values
for every omitted key not present in the narrowed input.  Concretely, for the
`USERNAME === MIRROR` schema: constructing with mismatched values and then
narrowing to `MIRROR` fails validation, and on a successfully constructed
parent the narrowed schema's check still rejects a record whose `MIRROR`
differs from the parent's validated `USERNAME`. -/
theorem claim_C1_pick_preserves_checks (e : EnvState) (keys : List String) (data : JsRecord)
    (hne : e.parser.base.checks ≠ [])
    (hnd : (e.parser.base.shape.map Prod.fst).Nodup) :
    ((e.pickSchema keys).checks
        = [reattachedCheck (e.parser.base.shape.map Prod.fst) keys e.dataRec
            e.parser.base.checks]) ∧
    (reattachedCheck (e.parser.base.shape.map Prod.fst) keys e.dataRec
        e.parser.base.checks data
      = e.parser.base.checks.flatMap
          (fun chk => chk (specSnapshot (e.parser.base.shape.map Prod.fst) keys
            e.dataRec data))) ∧
    ((do
        let e2 ← mkEnv P0 gEx mirrorParser srcMismatch
        e2.pick ["MIRROR"])
      = Except.error (EnvError.validation [⟨["MIRROR"], "mirror must match username"⟩])) ∧
    ((envMirror.pickSchema ["MIRROR"]).checks.flatMap
        (fun chk => chk [("MIRROR", JsVal.str "other")])
      = [⟨["MIRROR"], "mirror must match username"⟩]) := by
  refine ⟨pickSchema_checks e keys hne, ?_, rfl, rfl⟩
  unfold reattachedCheck
  rw [buildSnapshot_eq_spec e.dataRec keys _ data hnd]

/-- Witness for C1 on the mirror fixture: the narrowed schema carries exactly
the re-attached check, the re-attached check equals the base checks run on
the spec-side merged snapshot, the mismatched construction narrowed to
`MIRROR` fails, and the narrowed check rejects a divergent `MIRROR`. -/
theorem claim_C1_pick_preserves_checks_witness :
    ((envMirror.pickSchema ["MIRROR"]).checks
        = [reattachedCheck ["USERNAME", "MIRROR"] ["MIRROR"] envMirror.dataRec
            envMirror.parser.base.checks]) ∧
    (reattachedCheck ["USERNAME", "MIRROR"] ["MIRROR"] envMirror.dataRec
        envMirror.parser.base.checks [("MIRROR", JsVal.str "other")]
      = envMirror.parser.base.checks.flatMap
          (fun chk => chk (specSnapshot ["USERNAME", "MIRROR"] ["MIRROR"]
            envMirror.dataRec [("MIRROR", JsVal.str "other")]))) ∧
    ((do
        let e2 ← mkEnv P0 gEx mirrorParser srcMismatch
        e2.pick ["MIRROR"])
      = Except.error (EnvError.validation [⟨["MIRROR"], "mirror must match username"⟩])) ∧
    ((envMirror.pickSchema ["MIRROR"]).checks.flatMap
        (fun chk => chk [("MIRROR", JsVal.str "other")])
      = [⟨["MIRROR"], "mirror must match username"⟩]) := by
  have h := claim_C1_pick_preserves_checks envMirror ["MIRROR"]
    [("MIRROR", JsVal.str "other")] (List.cons_ne_nil _ _) (by decide)
  exact ⟨h.1, h.2.1, h.2.2.1, h.2.2.2⟩

/-- C9 counterexample: the claim says the shared validation context is never
mutated while the re-attached checks run; but the code assigns the snapshot
to `ctx.value` before each check (restoring it only afterwards), so on the
concrete mirror run the recorded context assignments are not all equal to the
context's original value. -/
theorem claim_C9_ctx_counterexample :
    ¬ (∀ v ∈ (runBaseChecks
          [("USERNAME", JsVal.str "admin"), ("MIRROR", JsVal.str "other")]
          [mirrorCheck] ⟨[("MIRROR", JsVal.str "other")], []⟩).snd,
        v = [("MIRROR", JsVal.str "other")]) := by
  intro h
  have hm := h [("USERNAME", JsVal.str "admin"), ("MIRROR", JsVal.str "other")]
    (List.mem_cons_self _ _)
  have hlen := congrArg List.length hm
  simp at hlen

/-- C9 amended: each re-attached base check observes the synthetic snapshot as
the context value and its issues on that snapshot are kept, but the context's
value is mutated transiently — assigned the snapshot for the duration of each
check and restored by the `finally`, so after the run the context value equals
its original (the snapshot itself is discarded). -/
theorem claim_C9_ctx_restored (snapshot : JsRecord) :
    ∀ (checks : List Check) (ctx : RefineCtx),
      (runBaseChecks snapshot checks ctx).fst.value = ctx.value ∧
      (runBaseChecks snapshot checks ctx).fst.issues
        = ctx.issues ++ checks.flatMap (fun chk => chk snapshot) ∧
      (runBaseChecks snapshot checks ctx).snd
        = checks.flatMap (fun _ => [snapshot, ctx.value]) := by
  intro checks
  induction checks with
  | nil => intro ctx; exact ⟨rfl, by simp [runBaseChecks], rfl⟩
  | cons chk rest ih =>
    intro ctx
    obtain ⟨h1, h2, h3⟩ := ih ⟨ctx.value, ctx.issues ++ chk snapshot⟩
    refine ⟨h1, ?_, ?_⟩
    · simp only [runBaseChecks]
      rw [h2]
      simp [List.append_assoc]
    · simp only [runBaseChecks]
      rw [h3]
      simp

end EnvStruct
